import Mathlib

/-!
Verification development for `oniongen-go` (`main.go`), a vanity Tor v3
onion-address generator.  Go byte slices are embedded as `List Nat` (each
element a byte value `< 256`), Go strings as `List Char`, and 64-bit words as
`Nat` reduced modulo `2^64` at every operation that can overflow.  The
cryptographic library primitives the source calls (`crypto/sha512.Sum512` and
`golang.org/x/crypto/sha3.Sum256`) are embedded as executable implementations
of FIPS 180-4 SHA-512 and FIPS 202 SHA3-256.
-/

namespace Oniongen

/-- `2^64`, the modulus of Go's `uint64` lane/word arithmetic. -/
def w64 : Nat := 18446744073709551616

/-- Rotate a 64-bit word (a `Nat < 2^64`) left by `n` bits. -/
def rotl64 (x n : Nat) : Nat :=
  Nat.lor ((x <<< n) % w64) (x >>> (64 - n))

/-- Rotate a 64-bit word right by `n` bits. -/
def rotr64 (x n : Nat) : Nat :=
  Nat.lor (x >>> n) ((x % (2 ^ n)) <<< (64 - n))

/-- Bitwise complement of a 64-bit word. -/
def not64 (x : Nat) : Nat := Nat.xor x (w64 - 1)

/-- Big-endian bytes (most significant first) of `n`, `k` bytes wide. -/
def natToBytesBE (k n : Nat) : List Nat :=
  (List.range k).map (fun i => (n >>> (8 * (k - 1 - i))) % 256)

/-- The 80 SHA-512 round constants (FIPS 180-4 §4.2.3). -/
def sha512K : List Nat :=
  [4794697086780616226, 8158064640168781261, 13096744586834688815,
   16840607885511220156, 4131703408338449720, 6480981068601479193,
   10538285296894168987, 12329834152419229976, 15566598209576043074,
   1334009975649890238, 2608012711638119052, 6128411473006802146,
   8268148722764581231, 9286055187155687089, 11230858885718282805,
   13951009754708518548, 16472876342353939154, 17275323862435702243,
   1135362057144423861, 2597628984639134821, 3308224258029322869,
   5365058923640841347, 6679025012923562964, 8573033837759648693,
   10970295158949994411, 12119686244451234320, 12683024718118986047,
   13788192230050041572, 14330467153632333762, 15395433587784984357,
   489312712824947311, 1452737877330783856, 2861767655752347644,
   3322285676063803686, 5560940570517711597, 5996557281743188959,
   7280758554555802590, 8532644243296465576, 9350256976987008742,
   10552545826968843579, 11727347734174303076, 12113106623233404929,
   14000437183269869457, 14369950271660146224, 15101387698204529176,
   15463397548674623760, 17586052441742319658, 1182934255886127544,
   1847814050463011016, 2177327727835720531, 2830643537854262169,
   3796741975233480872, 4115178125766777443, 5681478168544905931,
   6601373596472566643, 7507060721942968483, 8399075790359081724,
   8693463985226723168, 9568029438360202098, 10144078919501101548,
   10430055236837252648, 11840083180663258601, 13761210420658862357,
   14299343276471374635, 14566680578165727644, 15097957966210449927,
   16922976911328602910, 17689382322260857208, 500013540394364858,
   748580250866718886, 1242879168328830382, 1977374033974150939,
   2944078676154940804, 3659926193048069267, 4368137639120453308,
   4836135668995329356, 5532061633213252278, 6448918945643986474,
   6902733635092675308, 7801388544844847127]

/-- The SHA-512 initial hash value (FIPS 180-4 §5.3.5). -/
def sha512H0 : List Nat :=
  [7640891576956012808, 13503953896175478587, 4354685564936845355,
   11912009170470909681, 5840696475078001361, 11170449401992604703,
   2270897969802886507, 6620516959819538809]

/-- Pack bytes into 64-bit words, big-endian, 8 bytes per word. -/
def bytesToWordsBE : List Nat → List Nat
  | b0 :: b1 :: b2 :: b3 :: b4 :: b5 :: b6 :: b7 :: rest =>
      (((((((b0 * 256 + b1) * 256 + b2) * 256 + b3) * 256 + b4) * 256 + b5) * 256
          + b6) * 256 + b7) :: bytesToWordsBE rest
  | _ => []

/-- SHA-512 message padding: `0x80`, zeros, then the 16-byte big-endian bit
length, to a multiple of 128 bytes. -/
def sha512Pad (msg : List Nat) : List Nat :=
  let l := msg.length
  msg ++ [0x80] ++ List.replicate ((128 - ((l + 17) % 128)) % 128) 0
      ++ natToBytesBE 16 (8 * l)

def bigSigma0 (x : Nat) : Nat :=
  Nat.xor (Nat.xor (rotr64 x 28) (rotr64 x 34)) (rotr64 x 39)

def bigSigma1 (x : Nat) : Nat :=
  Nat.xor (Nat.xor (rotr64 x 14) (rotr64 x 18)) (rotr64 x 41)

def smallSigma0 (x : Nat) : Nat :=
  Nat.xor (Nat.xor (rotr64 x 1) (rotr64 x 8)) (x >>> 7)

def smallSigma1 (x : Nat) : Nat :=
  Nat.xor (Nat.xor (rotr64 x 19) (rotr64 x 61)) (x >>> 6)

def sha512Ch (e f g : Nat) : Nat :=
  Nat.xor (Nat.land e f) (Nat.land (not64 e) g)

def sha512Maj (a b c : Nat) : Nat :=
  Nat.xor (Nat.xor (Nat.land a b) (Nat.land a c)) (Nat.land b c)

/-- Extend the 16 block words to the 80-word message schedule. -/
def sha512Schedule (block : List Nat) : List Nat :=
  (List.range 64).foldl
    (fun w _ =>
      let n := w.length
      w ++ [(smallSigma1 (w.getD (n - 2) 0) + w.getD (n - 7) 0
             + smallSigma0 (w.getD (n - 15) 0) + w.getD (n - 16) 0) % w64])
    block

/-- One round of the SHA-512 compression function on state `[a,b,c,d,e,f,g,h]`. -/
def sha512Round (s : List Nat) (k w : Nat) : List Nat :=
  let a := s.getD 0 0
  let b := s.getD 1 0
  let c := s.getD 2 0
  let d := s.getD 3 0
  let e := s.getD 4 0
  let f := s.getD 5 0
  let g := s.getD 6 0
  let h := s.getD 7 0
  let t1 := (h + bigSigma1 e + sha512Ch e f g + k + w) % w64
  let t2 := (bigSigma0 a + sha512Maj a b c) % w64
  [(t1 + t2) % w64, a, b, c, (d + t1) % w64, e, f, g]

/-- Compress one 128-byte block into the running hash value. -/
def sha512Compress (H : List Nat) (block : List Nat) : List Nat :=
  let W := sha512Schedule (bytesToWordsBE block)
  let s := (List.range 80).foldl
    (fun s t => sha512Round s (sha512K.getD t 0) (W.getD t 0)) H
  (List.range 8).map (fun i => (H.getD i 0 + s.getD i 0) % w64)

/-- Fold the compression function over consecutive 128-byte blocks.  The first
argument is recursion fuel (any bound on the number of blocks); it makes the
recursion structural so the definition evaluates inside the kernel. -/
def sha512Blocks : Nat → List Nat → List Nat → List Nat
  | 0, H, _ => H
  | fuel + 1, H, msg =>
      if msg = [] then H
      else sha512Blocks fuel (sha512Compress H (msg.take 128)) (msg.drop 128)

/-- SHA-512 of a byte string (FIPS 180-4), as the list of its 64 digest bytes.
Embeds the Go standard library's `sha512.Sum512`. -/
def sha512 (msg : List Nat) : List Nat :=
  let p := sha512Pad msg
  let Hf := sha512Blocks p.length sha512H0 p
  (List.range 64).map (fun i => ((Hf.getD (i / 8) 0) >>> (8 * (7 - i % 8))) % 256)

/-- The 24 Keccak-f[1600] round constants (FIPS 202 §3.2.5). -/
def keccakRC : List Nat :=
  [1, 32898, 9223372036854808714,
   9223372039002292224, 32907, 2147483649,
   9223372039002292353, 9223372036854808585, 138,
   136, 2147516425, 2147483658,
   2147516555, 9223372036854775947, 9223372036854808713,
   9223372036854808579, 9223372036854808578, 9223372036854775936,
   32778, 9223372039002259466, 9223372039002292353,
   9223372036854808704, 2147483649, 9223372039002292232]

/-- One step of the ρ-offset walk of FIPS 202 §3.2.2: starting from lane
`(1,0)`, at step `t` the current lane gets offset `(t+1)(t+2)/2 mod 64` and
the walk moves to `(y, (2x+3y) mod 5)`.  Produces `(laneIndex, offset)`
pairs. -/
def keccakRhoWalk : Nat → Nat → Nat → Nat → List (Nat × Nat)
  | 0, _, _, _ => []
  | fuel + 1, x, y, t =>
      (x + 5 * y, ((t + 1) * (t + 2) / 2) % 64) ::
        keccakRhoWalk fuel y ((2 * x + 3 * y) % 5) (t + 1)

/-- The Keccak rotation offsets, indexed by lane `x + 5*y` (lane 0 rotates by
0 and is not visited by the walk). -/
def keccakRot : List Nat :=
  (List.range 25).map (fun i => ((keccakRhoWalk 24 1 0 0).lookup i).getD 0)

/-- Keccak θ step on a 25-lane state (lane `(x,y)` at index `x + 5*y`). -/
def keccakTheta (A : List Nat) : List Nat :=
  let C := (List.range 5).map (fun x =>
    Nat.xor (Nat.xor (Nat.xor (Nat.xor (A.getD x 0) (A.getD (x + 5) 0))
      (A.getD (x + 10) 0)) (A.getD (x + 15) 0)) (A.getD (x + 20) 0))
  let D := (List.range 5).map (fun x =>
    Nat.xor (C.getD ((x + 4) % 5) 0) (rotl64 (C.getD ((x + 1) % 5) 0) 1))
  (List.range 25).map (fun i => Nat.xor (A.getD i 0) (D.getD (i % 5) 0))

/-- Keccak ρ and π steps combined: lane `(X,Y)` of the result is lane
`((X + 3Y) % 5, X)` of the input rotated by its offset. -/
def keccakRhoPi (A : List Nat) : List Nat :=
  (List.range 25).map (fun j =>
    let src := (j % 5 + 3 * (j / 5)) % 5 + 5 * (j % 5)
    rotl64 (A.getD src 0) (keccakRot.getD src 0))

/-- Keccak χ step. -/
def keccakChi (A : List Nat) : List Nat :=
  (List.range 25).map (fun j =>
    let row := 5 * (j / 5)
    Nat.xor (A.getD j 0)
      (Nat.land (not64 (A.getD ((j % 5 + 1) % 5 + row) 0))
        (A.getD ((j % 5 + 2) % 5 + row) 0)))

/-- One Keccak-f round: ι ∘ χ ∘ π ∘ ρ ∘ θ. -/
def keccakRound (A : List Nat) (rc : Nat) : List Nat :=
  let B := keccakChi (keccakRhoPi (keccakTheta A))
  B.set 0 (Nat.xor (B.getD 0 0) rc)

/-- The Keccak-f[1600] permutation: 24 rounds. -/
def keccakF (A : List Nat) : List Nat := keccakRC.foldl keccakRound A

/-- Pack bytes into 64-bit lanes, little-endian, 8 bytes per lane. -/
def bytesToLanesLE : List Nat → List Nat
  | b0 :: b1 :: b2 :: b3 :: b4 :: b5 :: b6 :: b7 :: rest =>
      (b0 + 256 * (b1 + 256 * (b2 + 256 * (b3 + 256 * (b4 + 256 * (b5 + 256
          * (b6 + 256 * b7))))))) :: bytesToLanesLE rest
  | _ => []

/-- XOR a 136-byte rate block into the first 17 lanes of the state. -/
def keccakXorBlock (A : List Nat) (block : List Nat) : List Nat :=
  let lanes := bytesToLanesLE block
  (List.range 25).map (fun i =>
    if i < 17 then Nat.xor (A.getD i 0) (lanes.getD i 0) else A.getD i 0)

/-- SHA3 multi-rate padding for rate 136: `0x06`, zeros, final byte `0x80`
(`0x86` when a single pad byte completes the block). -/
def sha3Pad (l : Nat) : List Nat :=
  let j := 136 - l % 136
  if j = 1 then [0x86] else 0x06 :: List.replicate (j - 2) 0 ++ [0x80]

/-- Absorb consecutive 136-byte blocks.  The first argument is recursion fuel
(any bound on the number of blocks), keeping the recursion structural. -/
def keccakAbsorb : Nat → List Nat → List Nat → List Nat
  | 0, A, _ => A
  | fuel + 1, A, msg =>
      if msg = [] then A
      else keccakAbsorb fuel (keccakF (keccakXorBlock A (msg.take 136))) (msg.drop 136)

/-- SHA3-256 of a byte string (FIPS 202), as the list of its 32 digest bytes.
Embeds `golang.org/x/crypto/sha3.Sum256` from the source's imports. -/
def sha3_256 (msg : List Nat) : List Nat :=
  let padded := msg ++ sha3Pad msg.length
  let A := keccakAbsorb padded.length (List.replicate 25 0) padded
  (List.range 32).map (fun i => ((A.getD (i / 8) 0) >>> (8 * (i % 8))) % 256)

/-! ### Base32 and base64 (Go `encoding/base32`, `encoding/base64`, standard
alphabets, with `=` padding) -/

/-- The standard base32 alphabet (Go `base32.StdEncoding`). -/
def b32StdAlphabet : List Char := "ABCDEFGHIJKLMNOPQRSTUVWXYZ234567".toList

/-- Digit `i` of the standard base32 alphabet. -/
def b32Char (i : Nat) : Char := b32StdAlphabet.getD i 'A'

/-- The eight 5-bit digit values of a 5-byte group, as in Go's encoder
(shifts and masks written as division and remainder by powers of two). -/
def b32EncIdx (b0 b1 b2 b3 b4 : Nat) : List Nat :=
  [b0 / 8,
   (b0 % 8) * 4 + b1 / 64,
   (b1 / 2) % 32,
   (b1 % 2) * 16 + b2 / 16,
   (b2 % 16) * 2 + b3 / 128,
   (b3 / 4) % 32,
   (b3 % 4) * 8 + b4 / 32,
   b4 % 32]

/-- Go's `base32.StdEncoding.EncodeToString`: 5-byte groups become 8 digits;
a final partial group is zero-extended and padded with `=` to 8 characters. -/
def base32EncodeStd : List Nat → List Char
  | b0 :: b1 :: b2 :: b3 :: b4 :: rest =>
      (b32EncIdx b0 b1 b2 b3 b4).map b32Char ++ base32EncodeStd rest
  | [] => []
  | [b0] => ((b32EncIdx b0 0 0 0 0).take 2).map b32Char ++ List.replicate 6 '='
  | [b0, b1] => ((b32EncIdx b0 b1 0 0 0).take 4).map b32Char ++ List.replicate 4 '='
  | [b0, b1, b2] => ((b32EncIdx b0 b1 b2 0 0).take 5).map b32Char ++ List.replicate 3 '='
  | [b0, b1, b2, b3] => ((b32EncIdx b0 b1 b2 b3 0).take 7).map b32Char ++ List.replicate 1 '='

/-- The standard base64 alphabet (Go `base64.StdEncoding`). -/
def b64StdAlphabet : List Char :=
  "ABCDEFGHIJKLMNOPQRSTUVWXYZabcdefghijklmnopqrstuvwxyz0123456789+/".toList

/-- Digit `i` of the standard base64 alphabet. -/
def b64Char (i : Nat) : Char := b64StdAlphabet.getD i 'A'

/-- Go's `base64.StdEncoding.EncodeToString`: 3-byte groups become 4 digits;
a final partial group is zero-extended and padded with `=` to 4 characters. -/
def base64EncodeStd : List Nat → List Char
  | b0 :: b1 :: b2 :: rest =>
      [b64Char (b0 / 4), b64Char ((b0 % 4) * 16 + b1 / 16),
       b64Char ((b1 % 16) * 4 + b2 / 64), b64Char (b2 % 64)]
        ++ base64EncodeStd rest
  | [] => []
  | [b0] => [b64Char (b0 / 4), b64Char ((b0 % 4) * 16), '=', '=']
  | [b0, b1] => [b64Char (b0 / 4), b64Char ((b0 % 4) * 16 + b1 / 16),
                 b64Char ((b1 % 16) * 4), '=']

/-! ### Base32 decoding (written from the spec's words, to state the
round-trip: "decoding the address back yields the original public key, a
verifiable 2-byte checksum plus version byte 0x03") -/

/-- 5-bit value of a lowercase standard-base32 digit (`a`..`z`, `2`..`7`). -/
def b32CharVal (c : Char) : Nat :=
  if 'a' ≤ c ∧ c ≤ 'z' then c.toNat - 97
  else if '2' ≤ c ∧ c ≤ '7' then c.toNat - 50 + 26
  else 0

/-- Reassemble one group of eight 5-bit digit values into five bytes. -/
def b32DecGroup (i0 i1 i2 i3 i4 i5 i6 i7 : Nat) : List Nat :=
  [i0 * 8 + i1 / 4,
   (i1 % 4) * 64 + i2 * 2 + i3 / 16,
   (i3 % 16) * 16 + i4 / 2,
   (i4 % 2) * 128 + i5 * 4 + i6 / 8,
   (i6 % 8) * 32 + i7]

/-- Reassemble digit values into bytes, eight at a time (a leftover of fewer
than eight digits carries no full group and is dropped). -/
def b32ValsToBytes : List Nat → List Nat
  | i0 :: i1 :: i2 :: i3 :: i4 :: i5 :: i6 :: i7 :: rest =>
      b32DecGroup i0 i1 i2 i3 i4 i5 i6 i7 ++ b32ValsToBytes rest
  | _ => []

/-- Decode a padding-free lowercase standard-base32 string back to bytes.
Written from the spec's words (the source has no decoder); used only to state
the round-trip property of `encodePublicKey`. -/
def base32DecodeSpec (addr : List Char) : List Nat :=
  b32ValsToBytes (addr.map b32CharVal)

/-! ### The program under verification (`main.go`) -/

/-- `PrefixMatch` from `main.go`: a matched prefix with its onion address and
key.  `Attempts` holds a Go `uint64`, `ElapsedTime` an opaque duration. -/
structure PrefixMatch where
  Prefix : List Char
  OnionAddr : List Char
  PrivateKey : List Char
  Attempts : Nat
  ElapsedTime : Nat
  deriving Repr, DecidableEq

/-- The `TorMode` output-mode constant. -/
def TorMode : List Char := "tor".toList

/-- The `BitcoinMode` output-mode constant. -/
def BitcoinMode : List Char := "bitcoin".toList

/-- The bytes of the Go string `".onion checksum"`. -/
def onionChecksumTag : List Nat := ".onion checksum".toList.map Char.toNat

/-- `encodePublicKey` from `main.go`: checksum = SHA3-256 of
`".onion checksum" || pubkey || 0x03`; address = lowercased standard base32 of
`pubkey || checksum[:2] || 0x03`. -/
def encodePublicKey (publicKey : List Nat) : List Char :=
  let checksum := sha3_256 (onionChecksumTag ++ publicKey ++ [0x03])
  let onionAddressBytes := publicKey ++ checksum.take 2 ++ [0x03]
  (base32EncodeStd onionAddressBytes).map Char.toLower

/-- `expandSecretKey` from `main.go`: SHA-512 of the first 32 bytes of the
ed25519 private key, then `hash[0] &= 248`, `hash[31] &= 127`,
`hash[31] |= 64`. -/
def expandSecretKey (secretKey : List Nat) : List Nat :=
  let hash := sha512 (secretKey.take 32)
  let hash := hash.set 0 (Nat.land (hash.getD 0 0) 248)
  let hash := hash.set 31 (Nat.land (hash.getD 31 0) 127)
  hash.set 31 (Nat.lor (hash.getD 31 0) 64)

/-- The prefix loop of `generate` in `main.go` (`for _, prefix := range
prefixes { if strings.HasPrefix(onionAddress, prefix) { ...; break } }`):
the first listed prefix the address starts with, or none. -/
def firstMatching (ps : List (List Char)) (addr : List Char) : Option (List Char) :=
  match ps with
  | [] => none
  | p :: rest => if p.isPrefixOf addr then some p else firstMatching rest addr

/-- The 32 header bytes of the Go string literal
`"== ed25519v1-secret: type0 ==\x00\x00\x00"`. -/
def secretKeyTag : List Nat :=
  "== ed25519v1-secret: type0 ==".toList.map Char.toNat ++ [0, 0, 0]

/-- The 32 header bytes of the Go string literal
`"== ed25519v1-public: type0 ==\x00\x00\x00"`. -/
def publicKeyTag : List Nat :=
  "== ed25519v1-public: type0 ==".toList.map Char.toNat ++ [0, 0, 0]

/-- The three `(path, contents)` pairs `saveTorFormat` in `main.go` writes
(paths are Go string concatenations; file contents are bytes). -/
def saveTorFormatFiles (onionAddress : List Char) (publicKey : List Nat)
    (secretKey : List Nat) : List (List Char × List Nat) :=
  [(onionAddress ++ "/hs_ed25519_secret_key".toList, secretKeyTag ++ secretKey),
   (onionAddress ++ "/hs_ed25519_public_key".toList, publicKeyTag ++ publicKey),
   (onionAddress ++ "/hostname".toList,
      (onionAddress ++ ".onion\n".toList).map Char.toNat)]

/-- A filesystem operation performed by `saveTorFormat`. -/
inductive FsOp where
  | mkdirAll (path : List Char)
  | writeFile (path : List Char) (contents : List Nat)
  deriving Repr, DecidableEq

/-- `checkErr` from `main.go`: panic (here: abort with the failed operation)
when an operation reported an error, otherwise continue. -/
def checkErr (r : Option FsOp) : Except FsOp Unit :=
  match r with
  | some e => Except.error e
  | none => Except.ok ()

/-- Run one filesystem operation against an outcome oracle (`true` =
success), returning the error the Go call would return. -/
def fsDo (fs : FsOp → Bool) (op : FsOp) : Option FsOp :=
  if fs op then none else some op

/-- The control flow of `saveTorFormat` in `main.go` against an outcome
oracle: the `os.MkdirAll` return value is discarded (as in the source, which
does not check it), and each of the three `ioutil.WriteFile` results passes
through `checkErr`, whose panic aborts the process.  Returns the written
files on success, the panicking operation on abort. -/
def saveTorFormatRun (fs : FsOp → Bool) (onionAddress : List Char)
    (publicKey : List Nat) (secretKey : List Nat) :
    Except FsOp (List (List Char × List Nat)) :=
  let _ := fsDo fs (FsOp.mkdirAll onionAddress)
  match checkErr (fsDo fs (FsOp.writeFile (onionAddress ++ "/hs_ed25519_secret_key".toList)
      (secretKeyTag ++ secretKey))) with
  | Except.error e => Except.error e
  | Except.ok _ =>
    match checkErr (fsDo fs (FsOp.writeFile (onionAddress ++ "/hs_ed25519_public_key".toList)
        (publicKeyTag ++ publicKey))) with
    | Except.error e => Except.error e
    | Except.ok _ =>
      match checkErr (fsDo fs (FsOp.writeFile (onionAddress ++ "/hostname".toList)
          ((onionAddress ++ ".onion\n".toList).map Char.toNat))) with
      | Except.error e => Except.error e
      | Except.ok _ => Except.ok (saveTorFormatFiles onionAddress publicKey secretKey)

/-- `saveBitcoinFormatMulti` from `main.go`, as the `(path, contents)` pair it
writes: the configured path (default `onion_v3_private_key` when empty), and
one line `ED25519-V3:<PrivateKey>\n` per match, in list order.  The per-match
progress lines printed to stdout are not part of the file. -/
def saveBitcoinFormatMulti (matchList : List PrefixMatch) (outputPath : List Char) :
    List Char × List Char :=
  let outputFile := if outputPath = [] then "onion_v3_private_key".toList else outputPath
  (outputFile,
   (matchList.map (fun m => "ED25519-V3:".toList ++ m.PrivateKey ++ ['\n'])).flatten)

/-- An observable action of one iteration of `generate`'s loop body. -/
inductive WorkerEvent where
  | printAddr (addr : List Char)
  | torWrite (addr : List Char) (publicKey : List Nat) (expandedKey : List Nat)
  | send (m : PrefixMatch)
  deriving Repr, DecidableEq

/-- One iteration of the loop body of `generate` in `main.go`, for a freshly
generated keypair, as the ordered list of its observable actions.  `re` is
the compiled regex's `MatchString` (`none` embeds a nil `*regexp.Regexp`);
`attempts` is the worker's counter before this iteration (a `uint64`, so the
increment wraps modulo `2^64`); `elapsed` is the opaque `time.Since` value. -/
def generateStep (re : Option (List Char → Bool)) (prefixList : List (List Char))
    (outputMode : List Char) (publicKey secretKey : List Nat)
    (attempts : Nat) (elapsed : Nat) : List WorkerEvent :=
  let attempts' := (attempts + 1) % w64
  let onionAddress := encodePublicKey publicKey
  if prefixList ≠ [] then
    match firstMatching prefixList onionAddress with
    | some p =>
        [WorkerEvent.send
          { Prefix := p, OnionAddr := onionAddress,
            PrivateKey := base64EncodeStd (secretKey.take 32),
            Attempts := attempts', ElapsedTime := elapsed }]
    | none => []
  else
    match re with
    | some f =>
        if f onionAddress then
          WorkerEvent.printAddr onionAddress ::
          ((if outputMode = TorMode then
              [WorkerEvent.torWrite onionAddress publicKey (expandSecretKey secretKey)]
            else [])
            ++ [WorkerEvent.send
                 { Prefix := [], OnionAddr := onionAddress,
                   PrivateKey := base64EncodeStd (secretKey.take 32),
                   Attempts := attempts', ElapsedTime := elapsed }])
        else []
    | none => []

/-- Reduce an integer into `int32` range by two's-complement wrap-around
(Go's `int32` conversion and `AddInt32` overflow behaviour). -/
def int32Wrap (v : Int) : Int := (v + 2147483648) % 4294967296 - 2147483648

/-- The state of the result-collecting goroutine in `main`: the accumulated
`matches` slice (field `matchList`; `matches` is reserved in Lean), the `int32` counter `matchCount`, the argument of the
`saveBitcoinFormatMulti` call if it was made, and whether `os.Exit` ran. -/
structure AggState where
  matchList : List PrefixMatch
  matchCount : Int
  written : Option (List PrefixMatch)
  halted : Bool
  deriving Repr, DecidableEq

/-- Receiving one match in `main`'s collector goroutine: append to `matches`,
`atomic.AddInt32(&matchCount, 1)`, and when `matchCount >= int32(number)`
save in Bitcoin mode and `os.Exit(0)`.  After the exit nothing more runs. -/
def aggStep (number : Nat) (outputMode : List Char) (s : AggState)
    (m : PrefixMatch) : AggState :=
  if s.halted then s
  else
    let ms := s.matchList ++ [m]
    let c := int32Wrap (s.matchCount + 1)
    if int32Wrap (number : Int) ≤ c then
      { matchList := ms, matchCount := c,
        written := if outputMode = BitcoinMode then some ms else s.written,
        halted := true }
    else
      { matchList := ms, matchCount := c, written := s.written, halted := false }

/-- The collector goroutine over a whole arrival sequence, from the empty
initial state. -/
def aggRun (number : Nat) (outputMode : List Char)
    (inputs : List PrefixMatch) : AggState :=
  inputs.foldl (aggStep number outputMode) ⟨[], 0, none, false⟩

/-! ### Helper lemmas -/

theorem sha3_256_length (msg : List Nat) : (sha3_256 msg).length = 32 := by
  simp [sha3_256]

theorem sha3_256_lt (msg : List Nat) : ∀ b ∈ sha3_256 msg, b < 256 := by
  intro b hb
  simp only [sha3_256, List.mem_map, List.mem_range] at hb
  obtain ⟨i, -, rfl⟩ := hb
  exact Nat.mod_lt _ (by norm_num)

theorem sha512_length (msg : List Nat) : (sha512 msg).length = 64 := by
  simp [sha512]

theorem sha512_lt (msg : List Nat) : ∀ b ∈ sha512 msg, b < 256 := by
  intro b hb
  simp only [sha512, List.mem_map, List.mem_range] at hb
  obtain ⟨i, -, rfl⟩ := hb
  exact Nat.mod_lt _ (by norm_num)

theorem firstMatching_some_isPre (ps : List (List Char)) (addr p : List Char)
    (h : firstMatching ps addr = some p) : p.isPrefixOf addr = true := by
  induction ps with
  | nil => simp [firstMatching] at h
  | cons q rest ih =>
    by_cases hq : q.isPrefixOf addr
    · simp [firstMatching, hq] at h
      exact h ▸ hq
    · simp [firstMatching, hq] at h
      exact ih h

/-- **C9**: the secret-key expansion depends only on the first 32 bytes (the
seed) of the 64-byte ed25519 private key: two private keys agreeing on their
first 32 bytes expand identically. -/
theorem expandSecretKey_seed_only (sk1 sk2 : List Nat)
    (_h1 : sk1.length = 64) (_h2 : sk2.length = 64)
    (h : sk1.take 32 = sk2.take 32) :
    expandSecretKey sk1 = expandSecretKey sk2 := by
  simp only [expandSecretKey, h]

/-- Witness for `expandSecretKey_seed_only`: two concrete 64-byte keys with
equal seeds but different tails. -/
theorem expandSecretKey_seed_only_witness :
    expandSecretKey (List.replicate 32 0 ++ List.replicate 32 1)
      = expandSecretKey (List.replicate 32 0 ++ List.replicate 32 2) :=
  expandSecretKey_seed_only _ _ (by simp) (by simp) (by decide)

/-- **C3**: the Tor output path writes exactly three files: the secret-key
file is the 29 ASCII bytes `"== ed25519v1-secret: type0 =="` then three zero
bytes then the 64-byte expanded key (96 bytes), the public-key file is the 29
ASCII bytes `"== ed25519v1-public: type0 =="` then three zero bytes then the
32-byte public key (64 bytes), and the hostname file is the address followed
by `".onion"` and a trailing newline (byte 10). -/
theorem saveTorFormat_files_spec (addr : List Char) (pk sk : List Nat)
    (hpk : pk.length = 32) (hsk : sk.length = 64) :
    saveTorFormatFiles addr pk sk =
      [(addr ++ "/hs_ed25519_secret_key".toList, secretKeyTag ++ sk),
       (addr ++ "/hs_ed25519_public_key".toList, publicKeyTag ++ pk),
       (addr ++ "/hostname".toList,
          addr.map Char.toNat ++ ".onion".toList.map Char.toNat ++ [10])] ∧
    secretKeyTag = "== ed25519v1-secret: type0 ==".toList.map Char.toNat ++ [0, 0, 0] ∧
    publicKeyTag = "== ed25519v1-public: type0 ==".toList.map Char.toNat ++ [0, 0, 0] ∧
    ("== ed25519v1-secret: type0 ==".toList.map Char.toNat).length = 29 ∧
    ("== ed25519v1-public: type0 ==".toList.map Char.toNat).length = 29 ∧
    (∀ b ∈ "== ed25519v1-secret: type0 ==".toList.map Char.toNat, b < 128) ∧
    (∀ b ∈ "== ed25519v1-public: type0 ==".toList.map Char.toNat, b < 128) ∧
    (secretKeyTag ++ sk).length = 96 ∧
    (publicKeyTag ++ pk).length = 64 := by
  refine ⟨?_, rfl, rfl, by decide, by decide, by decide, by decide, ?_, ?_⟩
  · have h7 : ".onion\n".toList.map Char.toNat = ".onion".toList.map Char.toNat ++ [10] := by
      decide
    simp [saveTorFormatFiles, List.map_append, h7]
  · have h32 : secretKeyTag.length = 32 := by decide
    simp [List.length_append, h32, hsk]
  · have h32 : publicKeyTag.length = 32 := by decide
    simp [List.length_append, h32, hpk]

/-- Witness for `saveTorFormat_files_spec` at a concrete address and key
material. -/
theorem saveTorFormat_files_spec_witness :
    saveTorFormatFiles "a".toList (List.replicate 32 7) (List.replicate 64 9) =
      [("a".toList ++ "/hs_ed25519_secret_key".toList, secretKeyTag ++ List.replicate 64 9),
       ("a".toList ++ "/hs_ed25519_public_key".toList, publicKeyTag ++ List.replicate 32 7),
       ("a".toList ++ "/hostname".toList,
          "a".toList.map Char.toNat ++ ".onion".toList.map Char.toNat ++ [10])] ∧
    secretKeyTag = "== ed25519v1-secret: type0 ==".toList.map Char.toNat ++ [0, 0, 0] ∧
    publicKeyTag = "== ed25519v1-public: type0 ==".toList.map Char.toNat ++ [0, 0, 0] ∧
    ("== ed25519v1-secret: type0 ==".toList.map Char.toNat).length = 29 ∧
    ("== ed25519v1-public: type0 ==".toList.map Char.toNat).length = 29 ∧
    (∀ b ∈ "== ed25519v1-secret: type0 ==".toList.map Char.toNat, b < 128) ∧
    (∀ b ∈ "== ed25519v1-public: type0 ==".toList.map Char.toNat, b < 128) ∧
    (secretKeyTag ++ List.replicate 64 9).length = 96 ∧
    (publicKeyTag ++ List.replicate 32 7).length = 64 :=
  saveTorFormat_files_spec "a".toList (List.replicate 32 7) (List.replicate 64 9)
    (by simp) (by simp)

/-- **C6**: the prefix matcher is first-match-wins: it returns `none` exactly
when no listed prefix starts the address, and returns `some p` exactly when
`p` starts the address and every prefix listed before `p` does not; on the
spec's example (`["ab","a"]` against `"abcxyz"`) it returns `"ab"`. -/
theorem firstMatching_spec (ps : List (List Char)) (addr : List Char) :
    ((firstMatching ps addr = none ↔ ∀ p ∈ ps, p.isPrefixOf addr = false) ∧
     (∀ p, firstMatching ps addr = some p ↔
        ∃ l1 l2, ps = l1 ++ p :: l2 ∧ p.isPrefixOf addr = true ∧
          ∀ q ∈ l1, q.isPrefixOf addr = false)) ∧
    firstMatching ["ab".toList, "a".toList] "abcxyz".toList = some "ab".toList := by
  refine ⟨?_, by decide⟩
  induction ps with
  | nil =>
    constructor
    · simp [firstMatching]
    · intro p
      constructor
      · intro h; simp [firstMatching] at h
      · rintro ⟨l1, l2, h, -, -⟩
        exact absurd h (by simp)
  | cons q rest ih =>
    by_cases hq : q.isPrefixOf addr
    · constructor
      · constructor
        · intro h
          simp [firstMatching, hq] at h
        · intro h
          exact absurd (h q (by simp)) (by simp [hq])
      · intro p
        constructor
        · intro h
          have hqp : q = p := by simpa [firstMatching, hq] using h
          subst hqp
          exact ⟨[], rest, rfl, hq, by simp⟩
        · rintro ⟨l1, l2, hps, hp, hl1⟩
          cases l1 with
          | nil =>
            simp only [List.nil_append, List.cons.injEq] at hps
            obtain ⟨rfl, rfl⟩ := hps
            simp [firstMatching, hq]
          | cons q' l1' =>
            simp only [List.cons_append, List.cons.injEq] at hps
            obtain ⟨rfl, rfl⟩ := hps
            exact absurd (hl1 q (by simp)) (by simp [hq])
    · constructor
      · simp only [firstMatching, hq, if_neg, Bool.not_eq_true]
        rw [ih.1]
        constructor
        · intro h p hp
          rcases List.mem_cons.mp hp with rfl | hp
          · exact Bool.eq_false_iff.mpr hq
          · exact h p hp
        · intro h p hp
          exact h p (List.mem_cons_of_mem _ hp)
      · intro p
        simp only [firstMatching, hq, if_neg, Bool.not_eq_true]
        rw [ih.2 p]
        constructor
        · rintro ⟨l1, l2, hps, hp, hl1⟩
          refine ⟨q :: l1, l2, by simp [hps], hp, ?_⟩
          intro x hx
          rcases List.mem_cons.mp hx with rfl | hx
          · exact Bool.eq_false_iff.mpr hq
          · exact hl1 x hx
        · rintro ⟨l1, l2, hps, hp, hl1⟩
          cases l1 with
          | nil =>
            simp only [List.nil_append, List.cons.injEq] at hps
            obtain ⟨rfl, rfl⟩ := hps
            exact absurd hp hq
          | cons q' l1' =>
            simp only [List.cons_append, List.cons.injEq] at hps
            refine ⟨l1', l2, hps.2, hp, ?_⟩
            intro x hx
            exact hl1 x (List.mem_cons_of_mem _ hx)

/-- Witness for `firstMatching_spec`: the spec's concrete first-match-wins
example, extracted from the theorem at concrete inputs. -/
theorem firstMatching_spec_witness :
    firstMatching ["ab".toList, "a".toList] "abcxyz".toList = some "ab".toList :=
  (firstMatching_spec ["ab".toList, "a".toList] "abcxyz".toList).2

/-- **C4**: the Bitcoin batch writer targets the configured path (defaulting
to `onion_v3_private_key` when the path is empty) and its file content is one
line per match, in list order, of the form `ED25519-V3:` followed by the
standard padded base64 encoding of the match's 32-byte secret seed followed
by a newline. -/
theorem saveBitcoinFormatMulti_spec (matchList : List PrefixMatch)
    (seeds : List (List Nat)) (outputPath : List Char)
    (h : List.Forall₂
      (fun m s => m.PrivateKey = base64EncodeStd s ∧ s.length = 32) matchList seeds) :
    saveBitcoinFormatMulti matchList outputPath =
      ((if outputPath = [] then "onion_v3_private_key".toList else outputPath),
       (seeds.map (fun s => "ED25519-V3:".toList ++ base64EncodeStd s ++ ['\n'])).flatten) := by
  simp only [saveBitcoinFormatMulti, Prod.mk.injEq]
  refine ⟨trivial, ?_⟩
  induction h with
  | nil => rfl
  | cons hms _ ih =>
    simp only [List.map_cons, List.flatten_cons, hms.1, ih]

/-- Witness for `saveBitcoinFormatMulti_spec`: a single match holding the
base64 encoding of the all-zero seed, written to the default path. -/
theorem saveBitcoinFormatMulti_spec_witness :
    saveBitcoinFormatMulti
      [{ Prefix := [], OnionAddr := [], PrivateKey := base64EncodeStd (List.replicate 32 0),
         Attempts := 1, ElapsedTime := 0 }] [] =
      ((if ([] : List Char) = [] then "onion_v3_private_key".toList else []),
       ([List.replicate 32 0].map
          (fun s => "ED25519-V3:".toList ++ base64EncodeStd s ++ ['\n'])).flatten) :=
  saveBitcoinFormatMulti_spec _ [List.replicate 32 0] []
    (List.Forall₂.cons ⟨rfl, by simp⟩ List.Forall₂.nil)

theorem getD_set_self (l : List Nat) (i a : Nat) (h : i < l.length) :
    (l.set i a).getD i 0 = a := by
  simp [List.getD_eq_getElem?_getD, List.getElem?_set_self h]

theorem getD_set_other (l : List Nat) {i j : Nat} (a : Nat) (h : i ≠ j) :
    (l.set i a).getD j 0 = l.getD j 0 := by
  simp [List.getD_eq_getElem?_getD, List.getElem?_set_ne h]

theorem getD_lt_of_forall_lt (l : List Nat) (i : Nat) (hi : i < l.length)
    (hb : ∀ b ∈ l, b < 256) : l.getD i 0 < 256 := by
  rw [List.getD_eq_getElem?_getD, List.getElem?_eq_getElem hi]
  exact hb _ (List.getElem_mem hi)

set_option maxRecDepth 100000 in
theorem land248_mod8 : ∀ b : Fin 256, Nat.land b.val 248 % 8 = 0 := by decide

set_option maxRecDepth 100000 in
theorem clamp31_bits : ∀ b : Fin 256,
    Nat.lor (Nat.land b.val 127) 64 < 128 ∧
    (Nat.lor (Nat.land b.val 127) 64).testBit 6 = true := by decide

/-- **C2** (amended): `expandSecretKey` returns the 64-byte SHA-512 of the
first 32 bytes of the private key with byte 0's lowest 3 bits cleared and
byte 31's high bit cleared and bit 6 set; all other bytes — including the
last byte, byte 63 — are the SHA-512 output unchanged.  Consequently the
first byte has its low 3 bits clear and **byte 31** (not the last byte) has
its high bit clear and bit 6 set. -/
theorem expandSecretKey_spec (sk : List Nat) (_hlen : sk.length = 64) :
    (expandSecretKey sk).length = 64 ∧
    (expandSecretKey sk).getD 0 0 = Nat.land ((sha512 (sk.take 32)).getD 0 0) 248 ∧
    (expandSecretKey sk).getD 31 0 =
      Nat.lor (Nat.land ((sha512 (sk.take 32)).getD 31 0) 127) 64 ∧
    (∀ i, i < 64 → i ≠ 0 → i ≠ 31 →
      (expandSecretKey sk).getD i 0 = (sha512 (sk.take 32)).getD i 0) ∧
    (expandSecretKey sk).getD 0 0 % 8 = 0 ∧
    (expandSecretKey sk).getD 31 0 < 128 ∧
    ((expandSecretKey sk).getD 31 0).testBit 6 = true := by
  have hh : (sha512 (sk.take 32)).length = 64 := sha512_length _
  have hb := sha512_lt (sk.take 32)
  set h := sha512 (sk.take 32) with hdef
  have e : expandSecretKey sk =
      ((h.set 0 (Nat.land (h.getD 0 0) 248)).set 31
        (Nat.land ((h.set 0 (Nat.land (h.getD 0 0) 248)).getD 31 0) 127)).set 31
        (Nat.lor (((h.set 0 (Nat.land (h.getD 0 0) 248)).set 31
          (Nat.land ((h.set 0 (Nat.land (h.getD 0 0) 248)).getD 31 0) 127)).getD 31 0) 64) := by
    simp only [expandSecretKey, hdef]
  have len1 : (h.set 0 (Nat.land (h.getD 0 0) 248)).length = 64 := by
    simp [List.length_set, hh]
  have g31a : (h.set 0 (Nat.land (h.getD 0 0) 248)).getD 31 0 = h.getD 31 0 :=
    getD_set_other _ _ (by omega)
  have g31b : ((h.set 0 (Nat.land (h.getD 0 0) 248)).set 31
      (Nat.land ((h.set 0 (Nat.land (h.getD 0 0) 248)).getD 31 0) 127)).getD 31 0 =
      Nat.land (h.getD 31 0) 127 := by
    rw [g31a]; exact getD_set_self _ _ _ (by omega)
  have hlen_all : (expandSecretKey sk).length = 64 := by
    rw [e]; simp [List.length_set, hh]
  have hb31 : h.getD 31 0 < 256 := getD_lt_of_forall_lt _ _ (by omega) hb
  have hb0 : h.getD 0 0 < 256 := getD_lt_of_forall_lt _ _ (by omega) hb
  have hget0 : (expandSecretKey sk).getD 0 0 = Nat.land (h.getD 0 0) 248 := by
    rw [e, getD_set_other _ _ (by omega), getD_set_other _ _ (by omega)]
    exact getD_set_self _ _ _ (by omega)
  have hget31 : (expandSecretKey sk).getD 31 0 =
      Nat.lor (Nat.land (h.getD 31 0) 127) 64 := by
    rw [e, g31b, getD_set_self _ _ _ (by simp [List.length_set, hh])]
  refine ⟨hlen_all, hget0, by rw [hget31], ?_, ?_, ?_, ?_⟩
  · intro i hi h0 h31
    rw [e, getD_set_other _ _ (by omega), getD_set_other _ _ (by omega),
      getD_set_other _ _ (by omega)]
  · rw [hget0]; exact land248_mod8 ⟨h.getD 0 0, hb0⟩
  · rw [hget31]; exact (clamp31_bits ⟨h.getD 31 0, hb31⟩).1
  · rw [hget31]; exact (clamp31_bits ⟨h.getD 31 0, hb31⟩).2

/-- Witness for `expandSecretKey_spec` at the all-zero 64-byte private key. -/
theorem expandSecretKey_spec_witness :
    (expandSecretKey (List.replicate 64 0)).length = 64 ∧
    (expandSecretKey (List.replicate 64 0)).getD 0 0 =
      Nat.land ((sha512 ((List.replicate 64 0).take 32)).getD 0 0) 248 ∧
    (expandSecretKey (List.replicate 64 0)).getD 31 0 =
      Nat.lor (Nat.land ((sha512 ((List.replicate 64 0).take 32)).getD 31 0) 127) 64 ∧
    (∀ i, i < 64 → i ≠ 0 → i ≠ 31 →
      (expandSecretKey (List.replicate 64 0)).getD i 0 =
        (sha512 ((List.replicate 64 0).take 32)).getD i 0) ∧
    (expandSecretKey (List.replicate 64 0)).getD 0 0 % 8 = 0 ∧
    (expandSecretKey (List.replicate 64 0)).getD 31 0 < 128 ∧
    ((expandSecretKey (List.replicate 64 0)).getD 31 0).testBit 6 = true :=
  expandSecretKey_spec (List.replicate 64 0) (by simp)

set_option maxRecDepth 1000000 in
/-- Counterexample to **C2** as stated: for the all-zero private key (seed =
32 zero bytes) the **last** byte of the expanded key, byte 63, is 211 = 0xD3,
whose high bit is set — the clamp touches byte 31, not the output's last
byte. -/
theorem expandSecretKey_last_byte_cex :
    (expandSecretKey (List.replicate 64 0)).getD 63 0 = 211 ∧
    Nat.testBit 211 7 = true := by
  constructor
  · decide
  · rfl

theorem int32Wrap_of_small (v : Int) (h1 : 0 ≤ v) (h2 : v ≤ 2147483647) :
    int32Wrap v = v := by
  unfold int32Wrap
  omega

/-- The collector invariant: while not halted, the `int32` counter equals the
list length, which is still below the target; any performed write had exactly
`number` matches. -/
def AggInv (number : Nat) (s : AggState) : Prop :=
  (s.halted = false →
    s.matchCount = (s.matchList.length : Int) ∧ s.matchList.length < number) ∧
  (∀ ms, s.written = some ms → ms.length = number)

theorem aggStep_inv (number : Nat) (mode : List Char) (h1 : 1 ≤ number)
    (h2 : number ≤ 2147483647) (s : AggState) (m : PrefixMatch)
    (hs : AggInv number s) : AggInv number (aggStep number mode s m) := by
  unfold aggStep
  by_cases hh : s.halted = true
  · simp only [hh, if_pos]
    exact hs
  · have hh' : s.halted = false := by simpa using hh
    obtain ⟨hc, hlt⟩ := hs.1 hh'
    simp only [hh', Bool.false_eq_true, if_neg, not_false_iff]
    have hwrap : int32Wrap (s.matchCount + 1) = (s.matchList.length : Int) + 1 := by
      rw [hc]
      exact int32Wrap_of_small _ (by omega) (by omega)
    have hnum : int32Wrap (number : Int) = (number : Int) := by
      exact int32Wrap_of_small _ (by omega) (by omega)
    by_cases hcond : int32Wrap (number : Int) ≤ int32Wrap (s.matchCount + 1)
    · simp only [hcond, if_pos]
      constructor
      · intro h; exact absurd h (by simp)
      · intro ms hw
        have hexact : s.matchList.length + 1 = number := by
          rw [hwrap, hnum] at hcond
          omega
        by_cases hmode : mode = BitcoinMode
        · simp only [hmode, if_pos] at hw
          obtain rfl : s.matchList ++ [m] = ms := by simpa using hw
          simpa using hexact
        · simp only [hmode, if_neg, not_false_iff] at hw
          exact hs.2 ms hw
    · simp only [hcond, if_neg, not_false_iff]
      constructor
      · intro _
        refine ⟨by simpa using hwrap, ?_⟩
        rw [hwrap, hnum] at hcond
        simp only [List.length_append, List.length_cons, List.length_nil]
        omega
      · exact hs.2

theorem aggFold_inv (number : Nat) (mode : List Char) (h1 : 1 ≤ number)
    (h2 : number ≤ 2147483647) :
    ∀ (l : List PrefixMatch) (s : AggState), AggInv number s →
      AggInv number (l.foldl (aggStep number mode) s) := by
  intro l
  induction l with
  | nil => intro s hs; exact hs
  | cons x xs ih =>
    intro s hs
    simp only [List.foldl_cons]
    exact ih _ (aggStep_inv number mode h1 h2 s x hs)

/-- **C5** (amended): for every target `1 ≤ number ≤ 2^31 - 1` and every
arrival sequence, if the collector invoked the Bitcoin batch write then the
written list had exactly `number` matches.  (For `number ≥ 2^31` the `int32`
conversion in `main` makes the threshold wrap, and the write can fire with
fewer matches — see the counterexample.) -/
theorem aggRun_write_exact (number : Nat) (mode : List Char)
    (h1 : 1 ≤ number) (h2 : number ≤ 2147483647)
    (inputs : List PrefixMatch) (ms : List PrefixMatch)
    (hw : (aggRun number mode inputs).written = some ms) : ms.length = number := by
  have h0 : AggInv number ⟨[], 0, none, false⟩ := by
    constructor
    · intro _
      exact ⟨rfl, by simpa using h1⟩
    · intro ms hms
      cases hms
  have hrun : AggInv number (aggRun number mode inputs) :=
    aggFold_inv number mode h1 h2 inputs _ h0
  exact hrun.2 ms hw

/-- Witness for `aggRun_write_exact`: target 2, Bitcoin mode, three arrivals;
the write fires with exactly the first two matches. -/
theorem aggRun_write_exact_witness :
    (aggRun 2 BitcoinMode
      [{ Prefix := [], OnionAddr := [], PrivateKey := [], Attempts := 1, ElapsedTime := 0 },
       { Prefix := [], OnionAddr := [], PrivateKey := [], Attempts := 2, ElapsedTime := 0 },
       { Prefix := [], OnionAddr := [], PrivateKey := [], Attempts := 3, ElapsedTime := 0 }]).written =
      some [{ Prefix := [], OnionAddr := [], PrivateKey := [], Attempts := 1, ElapsedTime := 0 },
            { Prefix := [], OnionAddr := [], PrivateKey := [], Attempts := 2, ElapsedTime := 0 }] ∧
    (2 : Nat) = 2 := by
  constructor
  · decide
  · exact aggRun_write_exact 2 BitcoinMode (by omega) (by omega)
      [{ Prefix := [], OnionAddr := [], PrivateKey := [], Attempts := 1, ElapsedTime := 0 },
       { Prefix := [], OnionAddr := [], PrivateKey := [], Attempts := 2, ElapsedTime := 0 },
       { Prefix := [], OnionAddr := [], PrivateKey := [], Attempts := 3, ElapsedTime := 0 }]
      [{ Prefix := [], OnionAddr := [], PrivateKey := [], Attempts := 1, ElapsedTime := 0 },
       { Prefix := [], OnionAddr := [], PrivateKey := [], Attempts := 2, ElapsedTime := 0 }]
      (by decide)

/-- Counterexample to **C5** as stated: with target `2147483648` (a value
`strconv.Atoi` accepts), `int32(number)` in `main` is negative, so the very
first arrival satisfies `matchCount >= int32(number)` and the Bitcoin write
fires with a single match — fewer than `targetCount`. -/
theorem aggRun_int32_cex :
    (aggRun 2147483648 BitcoinMode
      [{ Prefix := [], OnionAddr := [], PrivateKey := [], Attempts := 1, ElapsedTime := 0 }]).written =
      some [{ Prefix := [], OnionAddr := [], PrivateKey := [], Attempts := 1, ElapsedTime := 0 }] ∧
    ([({ Prefix := [], OnionAddr := [], PrivateKey := [], Attempts := 1, ElapsedTime := 0 } :
        PrefixMatch)].length = 1 ∧ (1 : Nat) ≠ 2147483648) := by
  refine ⟨by decide, by decide, by decide⟩

/-- **C7**: in a worker's loop body, Tor-format files are written exactly
when the output mode is Tor and the active variant is the pattern (regex)
variant with a matching address; in that case the write event precedes the
send of the `Match` record; with the prefix-set variant active, every emitted
event is a send — no Tor files are written inline, whatever the mode. -/
theorem generateStep_tor_inline (re : Option (List Char → Bool))
    (prefixList : List (List Char)) (outputMode : List Char)
    (publicKey secretKey : List Nat) (attempts elapsed : Nat) :
    ((∃ a p s, WorkerEvent.torWrite a p s ∈
        generateStep re prefixList outputMode publicKey secretKey attempts elapsed) ↔
      (prefixList = [] ∧ outputMode = TorMode ∧
        ∃ f, re = some f ∧ f (encodePublicKey publicKey) = true)) ∧
    (prefixList = [] → outputMode = TorMode → ∀ f, re = some f →
      f (encodePublicKey publicKey) = true →
      generateStep re prefixList outputMode publicKey secretKey attempts elapsed =
        [WorkerEvent.printAddr (encodePublicKey publicKey),
         WorkerEvent.torWrite (encodePublicKey publicKey) publicKey
           (expandSecretKey secretKey),
         WorkerEvent.send
           { Prefix := [], OnionAddr := encodePublicKey publicKey,
             PrivateKey := base64EncodeStd (secretKey.take 32),
             Attempts := (attempts + 1) % w64, ElapsedTime := elapsed }]) ∧
    (prefixList ≠ [] → ∀ e ∈
        generateStep re prefixList outputMode publicKey secretKey attempts elapsed,
      ∃ m, e = WorkerEvent.send m) := by
  by_cases hp : prefixList = []
  · subst hp
    cases re with
    | none =>
      refine ⟨?_, ?_, by simp⟩
      · simp [generateStep]
      · intro _ _ f hf
        cases hf
    | some f =>
      by_cases hf : f (encodePublicKey publicKey) = true
      · by_cases hm : outputMode = TorMode
        · refine ⟨?_, ?_, by simp⟩
          · constructor
            · intro _
              exact ⟨rfl, hm, f, rfl, hf⟩
            · intro _
              refine ⟨encodePublicKey publicKey, publicKey, expandSecretKey secretKey, ?_⟩
              simp [generateStep, hf, hm]
          · intro _ _ g hg hga
            obtain rfl : f = g := by injection hg
            simp [generateStep, hf, hm]
        · refine ⟨?_, ?_, by simp⟩
          · constructor
            · rintro ⟨a, p, sE, hmem⟩
              simp [generateStep, hf, hm] at hmem
            · rintro ⟨-, hmode, -⟩
              exact absurd hmode hm
          · intro _ hmode
            exact absurd hmode hm
      · refine ⟨?_, ?_, by simp⟩
        · constructor
          · rintro ⟨a, p, sE, hmem⟩
            simp [generateStep, hf] at hmem
          · rintro ⟨-, -, g, hg, hga⟩
            obtain rfl : f = g := by injection hg
            exact absurd hga hf
        · intro _ _ g hg hga
          obtain rfl : f = g := by injection hg
          exact absurd hga hf
  · refine ⟨?_, ?_, ?_⟩
    · constructor
      · rintro ⟨a, p, sE, hmem⟩
        simp only [generateStep, if_pos hp] at hmem
        rcases hfm : firstMatching prefixList (encodePublicKey publicKey) with - | q
        · rw [hfm] at hmem
          simp at hmem
        · rw [hfm] at hmem
          simp at hmem
      · rintro ⟨hp', -, -⟩
        exact absurd hp' hp
    · intro hp' _ _ _ _
      exact absurd hp' hp
    · intro _ e he
      simp only [generateStep, if_pos hp] at he
      rcases hfm : firstMatching prefixList (encodePublicKey publicKey) with - | q
      · rw [hfm] at he
        simp at he
      · rw [hfm] at he
        simp at he
        exact ⟨_, he⟩

/-- Witness for `generateStep_tor_inline`: Tor mode, pattern variant matching
everything, concrete keypair — extracting the exact write-then-send event
order from the theorem. -/
theorem generateStep_tor_inline_witness :
    generateStep (some (fun _ => true)) [] TorMode (List.replicate 32 0)
        (List.replicate 64 0) 0 0 =
      [WorkerEvent.printAddr (encodePublicKey (List.replicate 32 0)),
       WorkerEvent.torWrite (encodePublicKey (List.replicate 32 0)) (List.replicate 32 0)
         (expandSecretKey (List.replicate 64 0)),
       WorkerEvent.send
         { Prefix := [], OnionAddr := encodePublicKey (List.replicate 32 0),
           PrivateKey := base64EncodeStd ((List.replicate 64 0).take 32),
           Attempts := (0 + 1) % w64, ElapsedTime := 0 }] :=
  (generateStep_tor_inline (some (fun _ => true)) [] TorMode (List.replicate 32 0)
      (List.replicate 64 0) 0 0).2.1 rfl rfl (fun _ => true) rfl rfl

theorem fsDo_true {fs : FsOp → Bool} {op : FsOp} (h : fs op = true) :
    fsDo fs op = none := by
  simp [fsDo, h]

theorem fsDo_false {fs : FsOp → Bool} {op : FsOp} (h : fs op = false) :
    fsDo fs op = some op := by
  simp [fsDo, h]

/-- **C8** (amended): in the Tor write path, a failure of any of the three
file writes aborts the run at once at the first failing write, with no retry
and no later operation; when all three writes succeed, the run completes with
exactly the three files — the `os.MkdirAll` error is discarded by the source,
so a directory-creation failure by itself never aborts (see counterexample),
and any abort cause is one of the three file writes. -/
theorem saveTorFormatRun_spec (fs : FsOp → Bool) (addr : List Char)
    (pk sk : List Nat) :
    (fs (FsOp.writeFile (addr ++ "/hs_ed25519_secret_key".toList) (secretKeyTag ++ sk)) = true →
     fs (FsOp.writeFile (addr ++ "/hs_ed25519_public_key".toList) (publicKeyTag ++ pk)) = true →
     fs (FsOp.writeFile (addr ++ "/hostname".toList) ((addr ++ ".onion\n".toList).map Char.toNat)) = true →
     saveTorFormatRun fs addr pk sk = Except.ok (saveTorFormatFiles addr pk sk)) ∧
    (fs (FsOp.writeFile (addr ++ "/hs_ed25519_secret_key".toList) (secretKeyTag ++ sk)) = false →
     saveTorFormatRun fs addr pk sk =
       Except.error (FsOp.writeFile (addr ++ "/hs_ed25519_secret_key".toList) (secretKeyTag ++ sk))) ∧
    (fs (FsOp.writeFile (addr ++ "/hs_ed25519_secret_key".toList) (secretKeyTag ++ sk)) = true →
     fs (FsOp.writeFile (addr ++ "/hs_ed25519_public_key".toList) (publicKeyTag ++ pk)) = false →
     saveTorFormatRun fs addr pk sk =
       Except.error (FsOp.writeFile (addr ++ "/hs_ed25519_public_key".toList) (publicKeyTag ++ pk))) ∧
    (fs (FsOp.writeFile (addr ++ "/hs_ed25519_secret_key".toList) (secretKeyTag ++ sk)) = true →
     fs (FsOp.writeFile (addr ++ "/hs_ed25519_public_key".toList) (publicKeyTag ++ pk)) = true →
     fs (FsOp.writeFile (addr ++ "/hostname".toList) ((addr ++ ".onion\n".toList).map Char.toNat)) = false →
     saveTorFormatRun fs addr pk sk =
       Except.error (FsOp.writeFile (addr ++ "/hostname".toList) ((addr ++ ".onion\n".toList).map Char.toNat))) ∧
    (∀ e, saveTorFormatRun fs addr pk sk = Except.error e →
      e = FsOp.writeFile (addr ++ "/hs_ed25519_secret_key".toList) (secretKeyTag ++ sk) ∨
      e = FsOp.writeFile (addr ++ "/hs_ed25519_public_key".toList) (publicKeyTag ++ pk) ∨
      e = FsOp.writeFile (addr ++ "/hostname".toList) ((addr ++ ".onion\n".toList).map Char.toNat)) := by
  refine ⟨?_, ?_, ?_, ?_, ?_⟩
  · intro h1 h2 h3
    simp only [saveTorFormatRun, fsDo_true h1, fsDo_true h2, fsDo_true h3, checkErr]
  · intro h1
    simp only [saveTorFormatRun, fsDo_false h1, checkErr]
  · intro h1 h2
    simp only [saveTorFormatRun, fsDo_true h1, fsDo_false h2, checkErr]
  · intro h1 h2 h3
    simp only [saveTorFormatRun, fsDo_true h1, fsDo_true h2, fsDo_false h3, checkErr]
  · intro e he
    by_cases h1 : fs (FsOp.writeFile (addr ++ "/hs_ed25519_secret_key".toList) (secretKeyTag ++ sk)) = true
    · by_cases h2 : fs (FsOp.writeFile (addr ++ "/hs_ed25519_public_key".toList) (publicKeyTag ++ pk)) = true
      · by_cases h3 : fs (FsOp.writeFile (addr ++ "/hostname".toList) ((addr ++ ".onion\n".toList).map Char.toNat)) = true
        · simp only [saveTorFormatRun, fsDo_true h1, fsDo_true h2, fsDo_true h3, checkErr] at he
          exact Except.noConfusion he
        · simp only [saveTorFormatRun, fsDo_true h1, fsDo_true h2,
            fsDo_false (Bool.eq_false_iff.mpr h3), checkErr] at he
          right; right
          injection he with he'
          exact he'.symm
      · simp only [saveTorFormatRun, fsDo_true h1,
          fsDo_false (Bool.eq_false_iff.mpr h2), checkErr] at he
        right; left
        injection he with he'
        exact he'.symm
    · simp only [saveTorFormatRun, fsDo_false (Bool.eq_false_iff.mpr h1), checkErr] at he
      left
      injection he with he'
      exact he'.symm

/-- Witness for `saveTorFormatRun_spec`: an all-succeeding filesystem — the
run returns the three files. -/
theorem saveTorFormatRun_spec_witness :
    saveTorFormatRun (fun _ => true) "a".toList (List.replicate 32 7) (List.replicate 64 9) =
      Except.ok (saveTorFormatFiles "a".toList (List.replicate 32 7) (List.replicate 64 9)) :=
  (saveTorFormatRun_spec (fun _ => true) "a".toList (List.replicate 32 7)
      (List.replicate 64 9)).1 rfl rfl rfl

/-- Counterexample to **C8** as stated: an oracle on which creating the
per-address directory fails but every file write succeeds — the source
ignores `os.MkdirAll`'s return value, so the run completes normally instead
of aborting. -/
theorem saveTorFormatRun_mkdir_ignored_cex :
    saveTorFormatRun
      (fun op => match op with
        | FsOp.mkdirAll _ => false
        | FsOp.writeFile _ _ => true)
      "a".toList (List.replicate 32 7) (List.replicate 64 9) =
      Except.ok (saveTorFormatFiles "a".toList (List.replicate 32 7) (List.replicate 64 9)) := by
  rfl

/-- **C10** (amended): every `Match` a worker sends carries
`Attempts = (previous counter + 1) mod 2^64` — hence at least 1 whenever the
`uint64` counter has not just wrapped — and in prefix mode its matched-prefix
field is a string prefix of its onion-address field, while in regex mode that
field is the empty string. -/
theorem generateStep_send_invariants (re : Option (List Char → Bool))
    (prefixList : List (List Char)) (outputMode : List Char)
    (publicKey secretKey : List Nat) (attempts elapsed : Nat) :
    ∀ m, WorkerEvent.send m ∈
        generateStep re prefixList outputMode publicKey secretKey attempts elapsed →
      m.Attempts = (attempts + 1) % w64 ∧
      (attempts + 1 < w64 → 1 ≤ m.Attempts) ∧
      (prefixList ≠ [] → m.Prefix.isPrefixOf m.OnionAddr = true) ∧
      (prefixList = [] → m.Prefix = []) := by
  intro m hm
  by_cases hp : prefixList = []
  · subst hp
    cases re with
    | none => simp [generateStep] at hm
    | some f =>
      by_cases hf : f (encodePublicKey publicKey) = true
      · by_cases hmode : outputMode = TorMode
        · have hlist : generateStep (some f) [] outputMode publicKey secretKey attempts elapsed =
              [WorkerEvent.printAddr (encodePublicKey publicKey),
               WorkerEvent.torWrite (encodePublicKey publicKey) publicKey (expandSecretKey secretKey),
               WorkerEvent.send
                 { Prefix := [], OnionAddr := encodePublicKey publicKey,
                   PrivateKey := base64EncodeStd (secretKey.take 32),
                   Attempts := (attempts + 1) % w64, ElapsedTime := elapsed }] := by
            simp [generateStep, hf, hmode]
          rw [hlist] at hm
          simp only [List.mem_cons, List.not_mem_nil, or_false] at hm
          rcases hm with hm | hm | hm
          · exact WorkerEvent.noConfusion hm
          · exact WorkerEvent.noConfusion hm
          · simp only [WorkerEvent.send.injEq] at hm
            subst hm
            refine ⟨rfl, ?_, fun h => absurd rfl h, fun _ => rfl⟩
            intro h
            simp only [Nat.mod_eq_of_lt h]
            omega
        · have hlist : generateStep (some f) [] outputMode publicKey secretKey attempts elapsed =
              [WorkerEvent.printAddr (encodePublicKey publicKey),
               WorkerEvent.send
                 { Prefix := [], OnionAddr := encodePublicKey publicKey,
                   PrivateKey := base64EncodeStd (secretKey.take 32),
                   Attempts := (attempts + 1) % w64, ElapsedTime := elapsed }] := by
            simp [generateStep, hf, hmode]
          rw [hlist] at hm
          simp only [List.mem_cons, List.not_mem_nil, or_false] at hm
          rcases hm with hm | hm
          · exact WorkerEvent.noConfusion hm
          · simp only [WorkerEvent.send.injEq] at hm
            subst hm
            refine ⟨rfl, ?_, fun h => absurd rfl h, fun _ => rfl⟩
            intro h
            simp only [Nat.mod_eq_of_lt h]
            omega
      · simp [generateStep, hf] at hm
  · rcases hfm : firstMatching prefixList (encodePublicKey publicKey) with - | q
    · have hlist : generateStep re prefixList outputMode publicKey secretKey attempts elapsed = [] := by
        simp [generateStep, hp, hfm]
      rw [hlist] at hm
      simp at hm
    · have hlist : generateStep re prefixList outputMode publicKey secretKey attempts elapsed =
          [WorkerEvent.send
            { Prefix := q, OnionAddr := encodePublicKey publicKey,
              PrivateKey := base64EncodeStd (secretKey.take 32),
              Attempts := (attempts + 1) % w64, ElapsedTime := elapsed }] := by
        simp [generateStep, hp, hfm]
      rw [hlist] at hm
      simp only [List.mem_singleton] at hm
      simp only [WorkerEvent.send.injEq] at hm
      subst hm
      refine ⟨rfl, ?_, ?_, fun h => absurd h hp⟩
      · intro h
        simp only [Nat.mod_eq_of_lt h]
        omega
      · intro _
        exact firstMatching_some_isPre prefixList (encodePublicKey publicKey) q hfm

set_option maxRecDepth 1000000 in
/-- Witness for `generateStep_send_invariants`: prefix mode with the
prefix `"a"` against the all-zero key's address (which starts with `a`). -/
theorem generateStep_send_invariants_witness :
    let M : PrefixMatch :=
      { Prefix := "a".toList, OnionAddr := encodePublicKey (List.replicate 32 0),
        PrivateKey := base64EncodeStd ((List.replicate 64 0).take 32),
        Attempts := (0 + 1) % w64, ElapsedTime := 0 }
    M.Attempts = (0 + 1) % w64 ∧
    (0 + 1 < w64 → 1 ≤ M.Attempts) ∧
    (["a".toList] ≠ ([] : List (List Char)) → M.Prefix.isPrefixOf M.OnionAddr = true) ∧
    (["a".toList] = ([] : List (List Char)) → M.Prefix = []) :=
  generateStep_send_invariants none ["a".toList] BitcoinMode (List.replicate 32 0)
    (List.replicate 64 0) 0 0 _ (by decide)

set_option maxRecDepth 1000000 in
/-- Counterexample to **C10** as stated: when the worker's `uint64` counter
stands at `2^64 - 1`, the increment wraps and the sent match carries
`Attempts = 0`, which is not at least 1. -/
theorem generateStep_attempts_wrap_cex :
    WorkerEvent.send
      { Prefix := [], OnionAddr := encodePublicKey (List.replicate 32 0),
        PrivateKey := base64EncodeStd ((List.replicate 64 0).take 32),
        Attempts := 0, ElapsedTime := 0 }
      ∈ generateStep (some (fun _ => true)) [] BitcoinMode (List.replicate 32 0)
          (List.replicate 64 0) 18446744073709551615 0 ∧
    ¬(1 ≤ (0 : Nat)) := by
  constructor
  · decide
  · decide

set_option maxRecDepth 100000 in
theorem b32Char_mem : ∀ i : Fin 32, b32Char i.val ∈ b32StdAlphabet := by decide

set_option maxRecDepth 100000 in
theorem b32CharVal_toLower_b32Char :
    ∀ i : Fin 32, b32CharVal (Char.toLower (b32Char i.val)) = i.val := by decide

theorem b32CharVal_toLower_of_lt (i : Nat) (h : i < 32) :
    b32CharVal (Char.toLower (b32Char i)) = i := by
  have := b32CharVal_toLower_b32Char ⟨i, h⟩
  simpa using this

theorem b32EncIdx_lt (b0 b1 b2 b3 b4 : Nat) (h0 : b0 < 256) (h1 : b1 < 256)
    (h2 : b2 < 256) (h3 : b3 < 256) (h4 : b4 < 256) :
    ∀ i ∈ b32EncIdx b0 b1 b2 b3 b4, i < 32 := by
  intro i hi
  simp only [b32EncIdx, List.mem_cons, List.not_mem_nil, or_false] at hi
  rcases hi with rfl | rfl | rfl | rfl | rfl | rfl | rfl | rfl <;> omega

theorem map_b32Val_toLower_of_lt (is : List Nat) (his : ∀ i ∈ is, i < 32) :
    is.map (fun i => b32CharVal (Char.toLower (b32Char i))) = is := by
  induction is with
  | nil => rfl
  | cons x xs ih =>
    simp only [List.map_cons]
    rw [b32CharVal_toLower_of_lt x (his x (by simp)),
      ih (fun i hi => his i (by simp [hi]))]

theorem b32DecGroup_encIdx (b0 b1 b2 b3 b4 : Nat) (_h0 : b0 < 256) (h1 : b1 < 256)
    (h2 : b2 < 256) (h3 : b3 < 256) (h4 : b4 < 256) :
    b32DecGroup (b0 / 8) ((b0 % 8) * 4 + b1 / 64) ((b1 / 2) % 32)
      ((b1 % 2) * 16 + b2 / 16) ((b2 % 16) * 2 + b3 / 128) ((b3 / 4) % 32)
      ((b3 % 4) * 8 + b4 / 32) (b4 % 32) = [b0, b1, b2, b3, b4] := by
  simp only [b32DecGroup, List.cons.injEq, and_true]
  refine ⟨?_, ?_, ?_, ?_, ?_⟩ <;> omega

theorem b32_enc_props_aux : ∀ (n : Nat) (l : List Nat), l.length ≤ n →
    l.length % 5 = 0 → (∀ b ∈ l, b < 256) →
    (base32EncodeStd l).length = 8 * (l.length / 5) ∧
    (∀ c ∈ base32EncodeStd l, c ∈ b32StdAlphabet) ∧
    b32ValsToBytes ((base32EncodeStd l).map (fun c => b32CharVal (Char.toLower c))) = l := by
  intro n
  induction n with
  | zero =>
    intro l hl h5 hb
    have hnil : l = [] := List.eq_nil_of_length_eq_zero (by omega)
    subst hnil
    exact ⟨rfl, by simp [base32EncodeStd], rfl⟩
  | succ n ih =>
    intro l hl h5 hb
    rcases l with _ | ⟨b0, _ | ⟨b1, _ | ⟨b2, _ | ⟨b3, _ | ⟨b4, rest⟩⟩⟩⟩⟩
    · exact ⟨rfl, by simp [base32EncodeStd], rfl⟩
    · simp at h5
    · simp at h5
    · simp at h5
    · simp at h5
    · have hb0 : b0 < 256 := hb _ (by simp)
      have hb1 : b1 < 256 := hb _ (by simp)
      have hb2 : b2 < 256 := hb _ (by simp)
      have hb3 : b3 < 256 := hb _ (by simp)
      have hb4 : b4 < 256 := hb _ (by simp)
      have hrl : rest.length ≤ n := by
        simp only [List.length_cons] at hl
        omega
      have hr5 : rest.length % 5 = 0 := by
        simp only [List.length_cons] at h5
        omega
      have hrb : ∀ b ∈ rest, b < 256 := fun b hbm => hb b (by simp [hbm])
      obtain ⟨ihl, ihm, ihr⟩ := ih rest hrl hr5 hrb
      have henc : base32EncodeStd (b0 :: b1 :: b2 :: b3 :: b4 :: rest) =
          (b32EncIdx b0 b1 b2 b3 b4).map b32Char ++ base32EncodeStd rest := rfl
      refine ⟨?_, ?_, ?_⟩
      · rw [henc, List.length_append, List.length_map]
        have h8 : (b32EncIdx b0 b1 b2 b3 b4).length = 8 := rfl
        rw [h8, ihl]
        simp only [List.length_cons]
        omega
      · intro c hc
        rw [henc] at hc
        rcases List.mem_append.mp hc with hc | hc
        · obtain ⟨i, hi, rfl⟩ := List.mem_map.mp hc
          have hlt : i < 32 := b32EncIdx_lt b0 b1 b2 b3 b4 hb0 hb1 hb2 hb3 hb4 i hi
          have := b32Char_mem ⟨i, hlt⟩
          simpa using this
        · exact ihm c hc
      · rw [henc, List.map_append, List.map_map]
        have hidx : ∀ i ∈ b32EncIdx b0 b1 b2 b3 b4, i < 32 :=
          b32EncIdx_lt b0 b1 b2 b3 b4 hb0 hb1 hb2 hb3 hb4
        have hmap : (b32EncIdx b0 b1 b2 b3 b4).map
            ((fun c => b32CharVal (Char.toLower c)) ∘ b32Char) =
            b32EncIdx b0 b1 b2 b3 b4 := by
          have := map_b32Val_toLower_of_lt (b32EncIdx b0 b1 b2 b3 b4) hidx
          simpa [Function.comp] using this
        rw [hmap]
        simp only [b32EncIdx, List.cons_append, List.nil_append]
        have hstep : b32ValsToBytes (b0 / 8 :: ((b0 % 8) * 4 + b1 / 64) ::
            ((b1 / 2) % 32) :: ((b1 % 2) * 16 + b2 / 16) ::
            ((b2 % 16) * 2 + b3 / 128) :: ((b3 / 4) % 32) ::
            ((b3 % 4) * 8 + b4 / 32) :: (b4 % 32) ::
            ((base32EncodeStd rest).map (fun c => b32CharVal (Char.toLower c)))) =
            b32DecGroup (b0 / 8) ((b0 % 8) * 4 + b1 / 64) ((b1 / 2) % 32)
              ((b1 % 2) * 16 + b2 / 16) ((b2 % 16) * 2 + b3 / 128) ((b3 / 4) % 32)
              ((b3 % 4) * 8 + b4 / 32) (b4 % 32) ++
            b32ValsToBytes ((base32EncodeStd rest).map
              (fun c => b32CharVal (Char.toLower c))) := rfl
        rw [hstep, ihr, b32DecGroup_encIdx b0 b1 b2 b3 b4 hb0 hb1 hb2 hb3 hb4]
        rfl

theorem b32_enc_props (l : List Nat) (h5 : l.length % 5 = 0)
    (hb : ∀ b ∈ l, b < 256) :
    (base32EncodeStd l).length = 8 * (l.length / 5) ∧
    (∀ c ∈ base32EncodeStd l, c ∈ b32StdAlphabet) ∧
    b32ValsToBytes ((base32EncodeStd l).map (fun c => b32CharVal (Char.toLower c))) = l :=
  b32_enc_props_aux l.length l le_rfl h5 hb

/-- **C1**: for every 32-byte public key, `encodePublicKey` returns a
56-character string over the lowercase base32 alphabet, equal to
`lowercase(base32(publicKey || checksum[:2] || 0x03))` where `checksum` is
`SHA3-256(".onion checksum" || publicKey || 0x03)`; decoding the address
yields back exactly `publicKey || checksum[:2] || 0x03` — the original key,
that checksum, and version byte 3. -/
theorem encodePublicKey_spec (pk : List Nat) (hlen : pk.length = 32)
    (hbytes : ∀ b ∈ pk, b < 256) :
    (encodePublicKey pk).length = 56 ∧
    encodePublicKey pk =
      (base32EncodeStd
        (pk ++ (sha3_256 (onionChecksumTag ++ pk ++ [3])).take 2 ++ [3])).map
        Char.toLower ∧
    (∀ c ∈ encodePublicKey pk, c ∈ b32StdAlphabet.map Char.toLower) ∧
    base32DecodeSpec (encodePublicKey pk) =
      pk ++ (sha3_256 (onionChecksumTag ++ pk ++ [3])).take 2 ++ [3] := by
  have hcs_len : (sha3_256 (onionChecksumTag ++ pk ++ [3])).length = 32 :=
    sha3_256_length _
  have hcs_lt := sha3_256_lt (onionChecksumTag ++ pk ++ [3])
  have hplen : (pk ++ (sha3_256 (onionChecksumTag ++ pk ++ [3])).take 2 ++ [3]).length = 35 := by
    rw [List.length_append, List.length_append, List.length_take, hcs_len, hlen]
    decide
  have hpbytes : ∀ b ∈ pk ++ (sha3_256 (onionChecksumTag ++ pk ++ [3])).take 2 ++ [3], b < 256 := by
    intro b hbm
    simp only [List.mem_append, List.mem_singleton] at hbm
    rcases hbm with (hbm | hbm) | rfl
    · exact hbytes b hbm
    · exact hcs_lt b (List.mem_of_mem_take hbm)
    · omega
  obtain ⟨hL, hM, hR⟩ := b32_enc_props
    (pk ++ (sha3_256 (onionChecksumTag ++ pk ++ [3])).take 2 ++ [3])
    (by rw [hplen]) hpbytes
  have henc : encodePublicKey pk =
      (base32EncodeStd
        (pk ++ (sha3_256 (onionChecksumTag ++ pk ++ [3])).take 2 ++ [3])).map
        Char.toLower := rfl
  refine ⟨?_, henc, ?_, ?_⟩
  · rw [henc, List.length_map, hL, hplen]
  · intro c hc
    rw [henc] at hc
    obtain ⟨d, hd, rfl⟩ := List.mem_map.mp hc
    exact List.mem_map.mpr ⟨d, hM d hd, rfl⟩
  · rw [henc]
    simp only [base32DecodeSpec, List.map_map]
    have : (fun c => b32CharVal c) ∘ Char.toLower =
        (fun c => b32CharVal (Char.toLower c)) := rfl
    simpa [Function.comp] using hR

set_option maxRecDepth 1000000 in
/-- Witness for `encodePublicKey_spec` at the all-zero public key. -/
theorem encodePublicKey_spec_witness :
    (encodePublicKey (List.replicate 32 0)).length = 56 ∧
    encodePublicKey (List.replicate 32 0) =
      (base32EncodeStd
        (List.replicate 32 0 ++
          (sha3_256 (onionChecksumTag ++ List.replicate 32 0 ++ [3])).take 2 ++ [3])).map
        Char.toLower ∧
    (∀ c ∈ encodePublicKey (List.replicate 32 0), c ∈ b32StdAlphabet.map Char.toLower) ∧
    base32DecodeSpec (encodePublicKey (List.replicate 32 0)) =
      List.replicate 32 0 ++
        (sha3_256 (onionChecksumTag ++ List.replicate 32 0 ++ [3])).take 2 ++ [3] :=
  encodePublicKey_spec (List.replicate 32 0) (by simp) (by simp)

end Oniongen
